import Mathlib

/-!
Verification of `thumbnailer.py` (a directory scanner that extracts YouTube
video ids from video file names, downloads the thumbnail with yt-dlp and
converts it to JPEG with ffmpeg).

The development shallowly embeds the three components of the script:

* the identifier extractor `extract_youtube_id` (regex matching over the
  filename stem),
* the asset fetcher `download_thumbnail` (two external process invocations,
  modelled through an explicit environment describing what the tools do),
* the scanner / orchestrator `scan_directory` (candidate filtering and the
  per-file loop with its counters).

Strings are modelled as `List Char`; machine-level concerns (encodings,
actual process execution) are abstracted into explicit environment data.
-/

namespace Thumbnailer

/-! ## Python `pathlib` name/stem/suffix semantics

`extract_youtube_id` computes `Path(filename).stem`; the scanner tests
`f.suffix.lower()`.  `pathlib` takes the final path component (`name`) and
splits it at the last dot, provided that dot is neither the first nor the
last character of the name (so a dotfile like `".mp4"` has empty suffix and
stem `".mp4"`).  We model `name` as the text after the last `/`, which
agrees with `pathlib` on plain file names and simple relative paths (the
script only ever passes `video_file.name`, a plain file name). -/

/-- The final path component: everything after the last `/`.  -/
def pyName (s : List Char) : List Char :=
  (s.reverse.takeWhile (fun c => c ≠ '/')).reverse

/-- Index of the last `.` in the list, if any. -/
def rfindDot : List Char → Option Nat
  | [] => none
  | c :: rest =>
    match rfindDot rest with
    | some i => some (i + 1)
    | none => if c = '.' then some 0 else none

/-- Python `Path(name).stem`: the name without its extension.  The split happens at
the last dot only when `0 < i < len - 1` (cpython `pathlib` rule). -/
def pyStem (name : List Char) : List Char :=
  match rfindDot name with
  | some i => if 0 < i ∧ i < name.length - 1 then name.take i else name
  | none => name

/-- Python `Path(name).suffix`: the extension including the dot, or `[]`. -/
def pySuffix (name : List Char) : List Char :=
  match rfindDot name with
  | some i => if 0 < i ∧ i < name.length - 1 then name.drop i else []
  | none => []

/-! ## The two regular expressions

`_BRACKETED_RE = re.compile(r"\[([a-zA-Z0-9_-]{11})\]")` and
`_TRAILING_RE = re.compile(r"(?:^|[-_. (])([a-zA-Z0-9_-]{11})$")`, both used
through `re.search`, which returns the match starting at the leftmost
possible position. -/

/-- A character of the id alphabet `[a-zA-Z0-9_-]` (ASCII, as in the regex). -/
def isIdChar (c : Char) : Bool :=
  c.isUpper || c.isLower || c.isDigit || c = '_' || c = '-'

/-- A separator accepted by the character class `[-_. (]` of `_TRAILING_RE`. -/
def isSep (c : Char) : Bool :=
  c = '-' || c = '_' || c = '.' || c = ' ' || c = '('

/-- Attempt to match `\[([a-zA-Z0-9_-]{11})\]` at the head of `s`,
returning the captured group. -/
def bracketedHeadMatch (s : List Char) : Option (List Char) :=
  match s with
  | c :: rest =>
    if c = '[' ∧ (rest.take 11).length = 11 ∧ (rest.take 11).all isIdChar = true ∧
        (rest.drop 11).head? = some ']' then
      some (rest.take 11)
    else
      none
  | [] => none

/-- Search for `_BRACKETED_RE` as `re.search` does: try each start position left to right
and return the first (leftmost) match's group. -/
def bracketedSearch : List Char → Option (List Char)
  | [] => none
  | c :: rest =>
    match bracketedHeadMatch (c :: rest) with
    | some t => some t
    | none => bracketedSearch rest

/-- Match `[a-zA-Z0-9_-]{11}` at the head of `rest`; on success return the
11 matched characters together with the remaining input. -/
def idRun (rest : List Char) : Option (List Char × List Char) :=
  if (rest.take 11).length = 11 ∧ (rest.take 11).all isIdChar = true then
    some (rest.take 11, rest.drop 11)
  else
    none

/-- Python's `$` (without `re.MULTILINE`): matches at the end of the string
and also just before a single newline that ends the string. -/
def endOk (rest : List Char) : Bool :=
  rest = [] || rest = ['\n']

/-- First alternative of `(?:^|[-_. (])`: the anchor `^`, which succeeds
only at the start of the input, followed by the group and `$`. -/
def altStart (atStart : Bool) (s : List Char) : Option (List Char) :=
  if atStart then
    match idRun s with
    | some (t, r) => if endOk r then some t else none
    | none => none
  else
    none

/-- Second alternative: a separator character from `[-_. (]`, then the
group and `$`. -/
def altSep (s : List Char) : Option (List Char) :=
  match s with
  | [] => none
  | c :: r1 =>
    if isSep c then
      match idRun r1 with
      | some (t, r) => if endOk r then some t else none
      | none => none
    else
      none

/-- Attempt to match `_TRAILING_RE` at a fixed position (the alternatives
are tried in the regex's order). -/
def trailingAt (atStart : Bool) (s : List Char) : Option (List Char) :=
  match altStart atStart s with
  | some t => some t
  | none => altSep s

/-- Search for `_TRAILING_RE` as `re.search` does: try every start position left to right;
`atStart` records whether the current position is the start of the stem
(where `^` can match). -/
def trailingGo : Bool → List Char → Option (List Char)
  | b, [] => trailingAt b []
  | b, c :: r =>
    match trailingAt b (c :: r) with
    | some t => some t
    | none => trailingGo false r

/-- The search for `_TRAILING_RE`, starting at the beginning of the stem. -/
def trailingSearch (s : List Char) : Option (List Char) :=
  trailingGo true s

/-- The function `extract_youtube_id(filename)` from `thumbnailer.py`: take the stem of
the filename, search `_BRACKETED_RE` first, fall back to `_TRAILING_RE`,
and return `none` when neither matches.  Total by construction (the Python
function raises no exception either: it is pure string work). -/
def extract_youtube_id (filename : List Char) : Option (List Char) :=
  let stem := pyStem (pyName filename)
  match bracketedSearch stem with
  | some t => some t
  | none => trailingSearch stem

example : extract_youtube_id ("My Video [dQw4w9WgXcQ].mp4").toList =
    some ("dQw4w9WgXcQ").toList := by decide

example : extract_youtube_id ("my-video-dQw4w9WgXcQ.mkv").toList =
    some ("dQw4w9WgXcQ").toList := by decide

example : extract_youtube_id ("vacation_clip.mp4").toList = none := by decide

example : extract_youtube_id ("dQw4w9WgXcQ.webm").toList =
    some ("dQw4w9WgXcQ").toList := by decide

/-! ## The asset fetcher `download_thumbnail`

The Python function runs two external processes inside a scoped temporary
directory.  Their behaviour is not determined by the script, so it is
modelled by an explicit environment `ToolEnv` describing what the tools do
during one invocation of `download_thumbnail`:

* `ytRaises` / `ffRaises`: `subprocess.run` raises (e.g. `FileNotFoundError`
  when the executable is not installed) instead of returning a completed
  process.  The script contains no `try`/`except`, so such an exception
  escapes `download_thumbnail`; this is modelled with `Except`.
* `ytFiles`: the regular files yt-dlp leaves in the temporary directory
  (line 89 of the source enumerates them; their presence is the success
  signal).
* `ytStderrLines` / `ffStderrLines`: the tool's stderr after `.strip()`
  and `.splitlines()` (the script only ever uses that normal form).
* `ffExit`: ffmpeg's exit code.
* `ffContent`: the JPEG that ffmpeg writes at the destination when it
  succeeds (`-y` overwrites unconditionally).
* `ffFailTouches` / `ffFailContent`: ffmpeg writes directly at the
  destination path, so when it exits non-zero it may already have created
  or overwritten the destination with half-written output; these fields say
  whether it did and what it left there.

The destination file is modelled as `Option Nat` (`none` = no file at the
destination, `some c` = a file with abstract content `c`).  The temporary
directory is removed by the `with` block on every path and never affects
the destination, so it needs no state of its own. -/

/-- An exception escaping a `subprocess.run` call (the script never
catches it). -/
inductive PyExn where
  | oSError
deriving DecidableEq, Repr

deriving instance DecidableEq for Except

/-- Behaviour of the two external tools during one `download_thumbnail`
invocation. -/
structure ToolEnv where
  ytRaises : Bool
  ytFiles : List (List Char)
  ytStderrLines : List (List Char)
  ffRaises : Bool
  ffExit : Nat
  ffContent : Nat
  ffFailTouches : Bool
  ffFailContent : Nat
  ffStderrLines : List (List Char)
deriving DecidableEq, Repr

/-- One line of console output during `download_thumbnail`.  The script's
own `print` calls are the first four constructors; `passthrough` is tool
output reaching the console directly because `capture_output` was off
(verbose mode). -/
inductive OutLine where
  | ytNoThumb
  | ytErr (l : List Char)
  | ffFailed (code : Nat)
  | ffErr (l : List Char)
  | passthrough (l : List Char)
deriving DecidableEq, Repr

/-- Python `lines[-5:]`: the last five elements (all of them when fewer). -/
def tail5 (l : List (List Char)) : List (List Char) :=
  l.drop (l.length - 5)

/-- The function `download_thumbnail(video_id, output_path, verbose)` from
`thumbnailer.py`, lines 60-123.  `dest` is the destination file before the
call; the result carries the returned boolean, the destination file after
the call, and the console output.  `capture = not verbose` mirrors line 81:
with verbose on, tool output is not captured and streams through to the
console; with verbose off, the script prints the captured stderr itself
(all of it for yt-dlp, the last five lines for ffmpeg). -/
def download_thumbnail (env : ToolEnv) (verbose : Bool) (dest : Option Nat) :
    Except PyExn (Bool × Option Nat × List OutLine) :=
  let capture := !verbose
  if env.ytRaises then .error .oSError
  else
    let out0 := if capture then [] else env.ytStderrLines.map OutLine.passthrough
    if env.ytFiles.isEmpty then
      .ok (false, dest,
        out0 ++ [OutLine.ytNoThumb] ++
          (if capture && !env.ytStderrLines.isEmpty then
            env.ytStderrLines.map OutLine.ytErr
          else []))
    else if env.ffRaises then .error .oSError
    else
      let out1 := out0 ++
        (if capture then [] else env.ffStderrLines.map OutLine.passthrough)
      if env.ffExit ≠ 0 then
        .ok (false,
          (if env.ffFailTouches then some env.ffFailContent else dest),
          out1 ++ [OutLine.ffFailed env.ffExit] ++
            (if capture && !env.ffStderrLines.isEmpty then
              (tail5 env.ffStderrLines).map OutLine.ffErr
            else []))
      else
        .ok (true, some env.ffContent, out1)

/-! ## The scanner / orchestrator `scan_directory`

Directory enumeration (`directory.glob(pattern)`) is a filesystem effect;
it is abstracted as an input list of directory entries, each with its
parent directory, final name and an `is_file()` flag.  The script then
filters by the extension set, sorts, and runs the per-file loop.  Poster
files are modelled as a small association-list filesystem `FS` keyed by
(parent directory, file name); `poster_path.exists()` is a lookup, and the
destination file written (or left) by `download_thumbnail` is stored back
under the poster's key. -/

/-- The set `VIDEO_EXTENSIONS` from lines 34-37 (a Python `set`, modelled as the
list of its elements; only membership is ever used). -/
def VIDEO_EXTENSIONS : List (List Char) :=
  [(".mp4").toList, (".mkv").toList, (".avi").toList, (".mov").toList,
   (".wmv").toList, (".flv").toList, (".webm").toList, (".m4v").toList,
   (".ts").toList, (".m2ts").toList, (".3gp").toList, (".ogv").toList]

/-- A directory entry produced by `glob`: parent directory, final name,
and the result of `f.is_file()`. -/
structure FileEntry where
  dir : List Char
  name : List Char
  isFile : Bool
deriving DecidableEq, Repr

/-- The test `f.suffix.lower() in VIDEO_EXTENSIONS` (line 137).  `Char.toLower`
lowers ASCII letters, which covers the ASCII extension set (Python's
`str.lower` also lowers non-ASCII letters, but no such string is in the
set). -/
def isVideoFile (name : List Char) : Bool :=
  VIDEO_EXTENSIONS.contains ((pySuffix name).map Char.toLower)

/-- The filter of lines 134-138: keep entries that are files and whose
suffix, lowercased, is a recognized video extension. -/
def candidateFiles (entries : List FileEntry) : List FileEntry :=
  entries.filter (fun e => e.isFile && isVideoFile e.name)

/-- Lexicographic order on character lists, for the `sorted()` call. -/
def lexLe : List Char → List Char → Bool
  | [], _ => true
  | _ :: _, [] => false
  | a :: as, b :: bs => if a < b then true else if a = b then lexLe as bs else false

/-- Order on entries by full path text, modelling `sorted()` over `Path`
objects (line 134). -/
def pathLe (a b : FileEntry) : Bool :=
  lexLe (a.dir ++ '/' :: a.name) (b.dir ++ '/' :: b.name)

/-- The sorted candidate list consumed by the loop. -/
def sortFiles (l : List FileEntry) : List FileEntry :=
  l.mergeSort pathLe

/-- The command-line flags consumed by `scan_directory`.  `recursiveScan`
only selects the glob pattern (line 133); enumeration itself is abstracted
as the input entry list, so the flag does not appear in the loop. -/
structure Config where
  recursiveScan : Bool
  dryRun : Bool
  skipExisting : Bool
  verbose : Bool
deriving DecidableEq, Repr

/-- The poster files on disk: an association list from (directory, file
name) to abstract file content. -/
abbrev FS := List ((List Char × List Char) × Nat)

/-- Does a file exist at `k`, and with which content? -/
def fsGet : FS → (List Char × List Char) → Option Nat
  | [], _ => none
  | (k0, v) :: rest, k => if k0 = k then some v else fsGet rest k

/-- Remove any file at `k`. -/
def fsErase : FS → (List Char × List Char) → FS
  | [], _ => []
  | (k0, v) :: rest, k =>
    if k0 = k then fsErase rest k else (k0, v) :: fsErase rest k

/-- Write (`some v`) or remove (`none`) the file at `k`. -/
def fsSet (fs : FS) (k : List Char × List Char) : Option Nat → FS
  | some v => (k, v) :: fsErase fs k
  | none => fsErase fs k

/-- The path `video_file.parent / (video_file.stem + "-poster.jpg")` (line 158). -/
def posterKey (f : FileEntry) : List Char × List Char :=
  (f.dir, pyStem f.name ++ ("-poster.jpg").toList)

/-- The terminal state a candidate file reaches in the loop body
(lines 148-186): one of the three skip paths, success, or failure. -/
inductive Outcome where
  | skippedNoId
  | skippedExisting
  | skippedDryRun
  | succeeded
  | failed
deriving DecidableEq, Repr

/-- The outcomes counted by the `skipped` counter. -/
def isSkip : Outcome → Bool
  | .skippedNoId => true
  | .skippedExisting => true
  | .skippedDryRun => true
  | .succeeded => false
  | .failed => false

/-- Result of one iteration of the loop body: the outcome, the poster
filesystem afterwards, the console output, and the fetch invocations made
(tagged with the file and the id, so invocations can be attributed). -/
structure PFR where
  outcome : Outcome
  fs : FS
  out : List OutLine
  calls : List (FileEntry × List Char)
deriving DecidableEq, Repr

/-- The loop body, lines 148-186: extract the id (skip when absent), skip
when the poster already exists and `--skip-existing` is on, skip on dry
run, otherwise call `download_thumbnail` and record success or failure.
An exception from `download_thumbnail` is not caught (there is no
`try`/`except` in the script) and aborts the iteration. -/
def processFile (cfg : Config) (env : ToolEnv) (fs : FS) (f : FileEntry) :
    Except PyExn PFR :=
  match extract_youtube_id f.name with
  | none => .ok ⟨.skippedNoId, fs, [], []⟩
  | some vid =>
    if cfg.skipExisting && (fsGet fs (posterKey f)).isSome then
      .ok ⟨.skippedExisting, fs, [], []⟩
    else if cfg.dryRun then
      .ok ⟨.skippedDryRun, fs, [], []⟩
    else
      match download_thumbnail env cfg.verbose (fsGet fs (posterKey f)) with
      | .error e => .error e
      | .ok (ok, d, out) =>
        .ok ⟨if ok then .succeeded else .failed, fsSet fs (posterKey f) d, out, [(f, vid)]⟩

/-- The scan session state: the three counters of line 146, the poster
filesystem, and the histories of per-file outcomes and fetch invocations. -/
structure ScanState where
  processed : Nat
  skipped : Nat
  failed : Nat
  fs : FS
  outcomes : List (FileEntry × Outcome)
  calls : List (FileEntry × List Char)
deriving DecidableEq, Repr

/-- Fold one loop-body result into the session state, incrementing exactly
the counter of the outcome reached (lines 154, 163, 173, 181, 184). -/
def record (st : ScanState) (f : FileEntry) (pfr : PFR) : ScanState :=
  ⟨st.processed + (if pfr.outcome = .succeeded then 1 else 0),
   st.skipped + (if isSkip pfr.outcome then 1 else 0),
   st.failed + (if pfr.outcome = .failed then 1 else 0),
   pfr.fs,
   st.outcomes ++ [(f, pfr.outcome)],
   st.calls ++ pfr.calls⟩

/-- The `for video_file in video_files` loop.  `envs n` is the behaviour of
the external tools during the `n`-th fetch invocation of the session (the
tools are free to behave differently every time).  An uncaught exception
aborts the loop, leaving the remaining files unprocessed. -/
def scanLoop (cfg : Config) (envs : Nat → ToolEnv) :
    List FileEntry → ScanState → Except PyExn ScanState
  | [], st => .ok st
  | f :: rest, st =>
    match processFile cfg (envs st.calls.length) st.fs f with
    | .error e => .error e
    | .ok pfr => scanLoop cfg envs rest (record st f pfr)

/-- The state at the start of a scan: zero counters, no history, and the
posters already on disk. -/
def initState (fs0 : FS) : ScanState :=
  ⟨0, 0, 0, fs0, [], []⟩

/-- The function `scan_directory`, lines 126-190: filter the directory entries to video
files, sort them, and run the loop.  (The "no video files found" early
return and the summary printing only produce console text.) -/
def scan_directory (cfg : Config) (envs : Nat → ToolEnv)
    (entries : List FileEntry) (fs0 : FS) : Except PyExn ScanState :=
  scanLoop cfg envs (sortFiles (candidateFiles entries)) (initState fs0)

/-! ## Lemmas about `_BRACKETED_RE` search -/

/-- The stem `s` contains a bracket-delimited token of exactly 11 id-alphabet
characters. -/
def HasBracketTok (s : List Char) : Prop :=
  ∃ u t v, s = u ++ '[' :: (t ++ ']' :: v) ∧ t.length = 11 ∧ t.all isIdChar = true

lemma bracketedHeadMatch_append (t v : List Char) (ht : t.length = 11)
    (hall : t.all isIdChar = true) :
    bracketedHeadMatch ('[' :: (t ++ ']' :: v)) = some t := by
  have h1 : (t ++ ']' :: v).take 11 = t := List.take_left' ht
  have h2 : (t ++ ']' :: v).drop 11 = ']' :: v := List.drop_left' ht
  simp [bracketedHeadMatch, h1, h2, ht, hall]

lemma bracketedHeadMatch_some (s t : List Char) (h : bracketedHeadMatch s = some t) :
    ∃ v, s = '[' :: (t ++ ']' :: v) ∧ t.length = 11 ∧ t.all isIdChar = true := by
  cases s with
  | nil => simp [bracketedHeadMatch] at h
  | cons c rest =>
    simp only [bracketedHeadMatch] at h
    split at h
    · rename_i hc
      obtain ⟨hc1, hc2, hc3, hc4⟩ := hc
      cases h
      cases hd : rest.drop 11 with
      | nil => rw [hd] at hc4; simp at hc4
      | cons c2 tl =>
        rw [hd] at hc4
        simp only [List.head?_cons, Option.some.injEq] at hc4
        refine ⟨tl, ?_, hc2, hc3⟩
        subst hc1 hc4
        have : rest.take 11 ++ rest.drop 11 = rest := List.take_append_drop 11 rest
        rw [hd] at this
        rw [this]
    · exact absurd h (by simp)

lemma bracketedSearch_append (u t v : List Char) (ht : t.length = 11)
    (hall : t.all isIdChar = true)
    (hleft : ∀ j, j < u.length →
      bracketedHeadMatch ((u ++ '[' :: (t ++ ']' :: v)).drop j) = none) :
    bracketedSearch (u ++ '[' :: (t ++ ']' :: v)) = some t := by
  induction u with
  | nil =>
    rw [List.nil_append]
    unfold bracketedSearch
    rw [bracketedHeadMatch_append t v ht hall]
  | cons c u ih =>
    have h0 : bracketedHeadMatch (c :: (u ++ '[' :: (t ++ ']' :: v))) = none := by
      have := hleft 0 (by simp)
      rwa [List.drop_zero, List.cons_append] at this
    rw [List.cons_append]
    unfold bracketedSearch
    rw [h0]
    exact ih (fun j hj => by
      have := hleft (j + 1) (by simpa using Nat.succ_lt_succ hj)
      rwa [List.cons_append, List.drop_succ_cons] at this)

lemma bracketedSearch_sound (s t : List Char) (h : bracketedSearch s = some t) :
    HasBracketTok s := by
  induction s with
  | nil => simp [bracketedSearch] at h
  | cons c rest ih =>
    unfold bracketedSearch at h
    cases hm : bracketedHeadMatch (c :: rest) with
    | some t2 =>
      rw [hm] at h
      cases h
      obtain ⟨v, he, ht, hall⟩ := bracketedHeadMatch_some _ _ hm
      exact ⟨[], t, v, by rw [he, List.nil_append], ht, hall⟩
    | none =>
      rw [hm] at h
      obtain ⟨u, t2, v, he, ht, hall⟩ := ih h
      exact ⟨c :: u, t2, v, by rw [he, List.cons_append], ht, hall⟩

lemma bracketedSearch_complete (s : List Char) (h : HasBracketTok s) :
    (bracketedSearch s).isSome = true := by
  obtain ⟨u, t, v, rfl, ht, hall⟩ := h
  induction u with
  | nil =>
    rw [List.nil_append]
    unfold bracketedSearch
    rw [bracketedHeadMatch_append t v ht hall]
    rfl
  | cons c u ih =>
    rw [List.cons_append]
    unfold bracketedSearch
    cases hm : bracketedHeadMatch (c :: (u ++ '[' :: (t ++ ']' :: v))) with
    | some t2 => rfl
    | none => exact ih

/-- The search for `_BRACKETED_RE` fails exactly on stems without a bracketed
token. -/
lemma bracketedSearch_eq_none_iff (s : List Char) :
    bracketedSearch s = none ↔ ¬ HasBracketTok s := by
  constructor
  · intro h hb
    have := bracketedSearch_complete s hb
    rw [h] at this
    simp at this
  · intro h
    cases hm : bracketedSearch s with
    | none => rfl
    | some t => exact absurd (bracketedSearch_sound s t hm) h

/-! ## Lemmas about `_TRAILING_RE` search -/

/-- The last 11 characters of `s`. -/
def final11 (s : List Char) : List Char :=
  s.drop (s.length - 11)

/-- A match of `_TRAILING_RE` in `s` with captured group `t`: eleven
id-alphabet characters, followed by the end of the string (or by the one
trailing newline that `$` tolerates), preceded by a separator character —
or preceded by nothing when the position is the start of the stem, which
only the whole-stem search (`b = true`) may use (`^`). -/
def TrailingMatch (b : Bool) (s t : List Char) : Prop :=
  t.length = 11 ∧ t.all isIdChar = true ∧
    ∃ pre e, s = pre ++ t ++ e ∧ (e = [] ∨ e = ['\n']) ∧
      ((pre = [] ∧ b = true) ∨ ∃ p c, pre = p ++ [c] ∧ isSep c = true)

lemma idRun_eq_some (rest t r : List Char) :
    idRun rest = some (t, r) ↔
      rest = t ++ r ∧ t.length = 11 ∧ t.all isIdChar = true := by
  constructor
  · intro h
    unfold idRun at h
    split at h
    · rename_i hc
      obtain ⟨h1, h2⟩ := hc
      cases h
      exact ⟨(List.take_append_drop 11 rest).symm, h1, h2⟩
    · simp at h
  · rintro ⟨rfl, ht, hall⟩
    unfold idRun
    rw [List.take_left' ht, List.drop_left' ht]
    simp [ht, hall]

lemma endOk_iff (e : List Char) : endOk e = true ↔ (e = [] ∨ e = ['\n']) := by
  unfold endOk
  simp

lemma endOk_length (e : List Char) (h : endOk e = true) : e.length ≤ 1 := by
  rcases (endOk_iff e).mp h with h0 | h0 <;> subst h0 <;> simp

lemma token_mem_newline (t : List Char) (hall : t.all isIdChar = true)
    (h : '\n' ∈ t) : False := by
  have := List.all_eq_true.mp hall '\n' h
  simp [isIdChar] at this

lemma mem_of_getLast?_eq (l : List Char) (a : Char) (h : l.getLast? = some a) :
    a ∈ l := by
  cases l with
  | nil => simp at h
  | cons b bs =>
    rw [List.getLast?_eq_getLast (b :: bs) (by simp)] at h
    cases h
    exact List.getLast_mem (by simp)

/-- An 11-character id token cannot end right before the string's end if
the string ends in a newline. -/
lemma token_end_no_newline (x t y : List Char) (ht : t.length = 11)
    (hall : t.all isIdChar = true) (h : x ++ t = y ++ ['\n']) : False := by
  have htne : t ≠ [] := by intro h0; rw [h0] at ht; simp at ht
  have h1 : (x ++ t).getLast? = t.getLast? := List.getLast?_append_of_ne_nil x htne
  rw [h, List.getLast?_concat y] at h1
  exact token_mem_newline t hall (mem_of_getLast?_eq t '\n' h1.symm)

/-- A length-11 suffix of `s` is its last 11 characters. -/
lemma suffix_token_eq (s pre t : List Char) (ht : t.length = 11)
    (hs : s = pre ++ t) : t = final11 s := by
  have hd : s.drop pre.length = t := by rw [hs]; exact List.drop_left pre t
  have hl : s.length = pre.length + 11 := by rw [hs]; simp [ht]
  rw [final11, hl, Nat.add_sub_cancel]
  exact hd.symm

lemma trailingMatch_unique (b b2 : Bool) (s t t2 : List Char)
    (h : TrailingMatch b s t) (h2 : TrailingMatch b2 s t2) : t = t2 := by
  obtain ⟨ht, hall, pre, e, hs, he, _⟩ := h
  obtain ⟨ht2, hall2, pre2, e2, hs2, he2, _⟩ := h2
  rcases he with h0 | h0 <;> rcases he2 with h02 | h02 <;> subst h0 h02
  · rw [List.append_nil] at hs hs2
    rw [suffix_token_eq s pre t ht hs, suffix_token_eq s pre2 t2 ht2 hs2]
  · rw [List.append_nil] at hs
    exact absurd (hs.symm.trans hs2)
      (fun hx => token_end_no_newline pre t (pre2 ++ t2) ht hall hx)
  · rw [List.append_nil] at hs2
    exact absurd (hs2.symm.trans hs)
      (fun hx => token_end_no_newline pre2 t2 (pre ++ t) ht2 hall2 hx)
  · have hdl : s.dropLast = pre ++ t := by rw [hs]; exact List.dropLast_concat
    have hdl2 : s.dropLast = pre2 ++ t2 := by rw [hs2]; exact List.dropLast_concat
    rw [suffix_token_eq s.dropLast pre t ht hdl, suffix_token_eq s.dropLast pre2 t2 ht2 hdl2]

lemma altStart_sound (b : Bool) (s t : List Char) (h : altStart b s = some t) :
    b = true ∧ ∃ r, idRun s = some (t, r) ∧ endOk r = true := by
  unfold altStart at h
  split at h
  · rename_i hb
    split at h
    · rename_i t2 r hr
      split at h
      · rename_i hend
        cases h
        exact ⟨hb, r, hr, hend⟩
      · simp at h
    · simp at h
  · simp at h

lemma altSep_sound (s t : List Char) (h : altSep s = some t) :
    ∃ c r1 r, s = c :: r1 ∧ isSep c = true ∧ idRun r1 = some (t, r) ∧
      endOk r = true := by
  cases s with
  | nil => simp [altSep] at h
  | cons c r1 =>
    simp only [altSep] at h
    split at h
    · rename_i hc
      split at h
      · rename_i t2 r hr
        split at h
        · rename_i hend
          cases h
          exact ⟨c, r1, r, rfl, hc, hr, hend⟩
        · simp at h
      · simp at h
    · simp at h

lemma trailingAt_sound (b : Bool) (s t : List Char) (h : trailingAt b s = some t) :
    TrailingMatch b s t := by
  unfold trailingAt at h
  cases ha : altStart b s with
  | some t2 =>
    rw [ha] at h
    cases h
    obtain ⟨hb, r, hr, hend⟩ := altStart_sound b s t ha
    obtain ⟨hs, htl, hall⟩ := (idRun_eq_some s t r).mp hr
    exact ⟨htl, hall, [], r, by simpa using hs, (endOk_iff r).mp hend,
      Or.inl ⟨rfl, hb⟩⟩
  | none =>
    rw [ha] at h
    obtain ⟨c, r1, r, hs, hc, hr, hend⟩ := altSep_sound s t h
    obtain ⟨hr1, htl, hall⟩ := (idRun_eq_some r1 t r).mp hr
    exact ⟨htl, hall, [c], r, by rw [hs, hr1]; simp, (endOk_iff r).mp hend,
      Or.inr ⟨[], c, by simp, hc⟩⟩

lemma trailingAt_start_complete (s t e : List Char) (ht : t.length = 11)
    (hall : t.all isIdChar = true) (hs : s = t ++ e) (he : e = [] ∨ e = ['\n']) :
    trailingAt true s = some t := by
  have hr : idRun s = some (t, e) := (idRun_eq_some s t e).mpr ⟨hs, ht, hall⟩
  have hend : endOk e = true := (endOk_iff e).mpr he
  unfold trailingAt
  simp [altStart, hr, hend]

lemma trailingAt_sep_complete (b : Bool) (c : Char) (t e : List Char)
    (ht : t.length = 11) (hall : t.all isIdChar = true) (hc : isSep c = true)
    (he : e = [] ∨ e = ['\n']) :
    trailingAt b (c :: (t ++ e)) = some t := by
  have hA : altStart b (c :: (t ++ e)) = none := by
    cases b with
    | false => simp [altStart]
    | true =>
      cases hr : idRun (c :: (t ++ e)) with
      | none => simp [altStart, hr]
      | some pr =>
        obtain ⟨t2, r2⟩ := pr
        obtain ⟨hs2, ht2, hall2⟩ := (idRun_eq_some _ _ _).mp hr
        have hr2len : r2.length = 1 + e.length := by
          have hlen := congrArg List.length hs2
          simp [ht2, ht] at hlen
          omega
        have hend : endOk r2 = false := by
          cases hb : endOk r2 with
          | false => rfl
          | true =>
            exfalso
            rcases (endOk_iff r2).mp hb with h0 | h0
            · rw [h0] at hr2len
              simp only [List.length_nil] at hr2len
              omega
            · rw [h0] at hr2len
              have he0 : e = [] := by
                have h1 : e.length = 0 := by
                  simp only [List.length_cons, List.length_nil] at hr2len
                  omega
                exact List.length_eq_zero.mp h1
              subst he0 h0
              rw [List.append_nil] at hs2
              exact token_end_no_newline [c] t t2 ht hall (by simpa using hs2)
        simp [altStart, hr, hend]
  have hr : idRun (t ++ e) = some (t, e) := (idRun_eq_some _ t e).mpr ⟨rfl, ht, hall⟩
  have hend : endOk e = true := (endOk_iff e).mpr he
  unfold trailingAt
  rw [hA]
  simp [altSep, hc, hr, hend]

lemma trailingMatch_cons (b : Bool) (c : Char) (r t : List Char)
    (h : TrailingMatch false r t) : TrailingMatch b (c :: r) t := by
  obtain ⟨ht, hall, pre, e, hs, he, hpre⟩ := h
  rcases hpre with ⟨_, hb⟩ | ⟨p, c2, hp, hc2⟩
  · simp at hb
  · exact ⟨ht, hall, c :: pre, e, by rw [hs]; simp, he,
      Or.inr ⟨c :: p, c2, by rw [hp]; simp, hc2⟩⟩

lemma trailingGo_sound (b : Bool) (s t : List Char)
    (h : trailingGo b s = some t) : TrailingMatch b s t := by
  induction s generalizing b with
  | nil =>
    unfold trailingGo trailingAt altStart altSep at h
    cases b <;> simp [idRun] at h
  | cons c r ih =>
    unfold trailingGo at h
    cases hm : trailingAt b (c :: r) with
    | some t2 =>
      rw [hm] at h
      cases h
      exact trailingAt_sound b (c :: r) t hm
    | none =>
      rw [hm] at h
      exact trailingMatch_cons b c r t (ih false h)

lemma trailingGo_complete (b : Bool) (s t : List Char)
    (h : TrailingMatch b s t) : trailingGo b s = some t := by
  induction s generalizing b with
  | nil =>
    obtain ⟨ht, _, pre, e, hs, _, _⟩ := h
    have := congrArg List.length hs
    simp [ht] at this
    omega
  | cons c r ih =>
    obtain ⟨ht, hall, pre, e, hs, he, hpre⟩ := h
    unfold trailingGo
    cases hm : trailingAt b (c :: r) with
    | some t2 =>
      have h1 : TrailingMatch b (c :: r) t2 := trailingAt_sound b (c :: r) t2 hm
      have h2 : TrailingMatch b (c :: r) t := ⟨ht, hall, pre, e, hs, he, hpre⟩
      rw [trailingMatch_unique b b (c :: r) t2 t h1 h2]
    | none =>
      rcases hpre with ⟨hp0, hb⟩ | ⟨p, c2, hp, hc2⟩
      · subst hp0 hb
        rw [List.nil_append] at hs
        rw [trailingAt_start_complete (c :: r) t e ht hall hs he] at hm
        simp at hm
      · cases p with
        | nil =>
          rw [List.nil_append] at hp
          subst hp
          simp only [List.cons_append, List.nil_append, List.cons.injEq] at hs
          obtain ⟨hceq, hr⟩ := hs
          subst hceq
          rw [hr] at hm
          have hcon := trailingAt_sep_complete b c t e ht hall hc2 he
          rw [hm] at hcon
          simp at hcon
        | cons c0 p2 =>
          subst hp
          simp only [List.cons_append, List.cons.injEq] at hs
          obtain ⟨hceq, hr⟩ := hs
          have hrm : TrailingMatch false r t :=
            ⟨ht, hall, p2 ++ [c2], e, hr, he, Or.inr ⟨p2, c2, rfl, hc2⟩⟩
          exact ih false hrm

/-- The search for `_TRAILING_RE` over the whole stem succeeds with group `t`
exactly when the stem has a trailing match with that group. -/
lemma trailingSearch_eq_some_iff (s t : List Char) :
    trailingSearch s = some t ↔ TrailingMatch true s t :=
  ⟨trailingGo_sound true s t, trailingGo_complete true s t⟩

lemma trailingSearch_eq_none_iff (s : List Char) :
    trailingSearch s = none ↔ ∀ t, ¬ TrailingMatch true s t := by
  constructor
  · intro h t hm
    rw [trailingSearch, trailingGo_complete true s t hm] at h
    simp at h
  · intro h
    cases hm : trailingSearch s with
    | none => rfl
    | some t => exact absurd (trailingGo_sound true s t hm) (h t)

/-- A match whose `$` used the trailing-newline position cannot capture
the string's final 11 characters: those end in the newline itself. -/
lemma final11_no_newline_match (s t pre : List Char) (ht : t.length = 11)
    (hall : t.all isIdChar = true) (hs : s = pre ++ t ++ ['\n'])
    (hteq : t = final11 s) : False := by
  have hslen : s.length = pre.length + 12 := by
    have := congrArg List.length hs
    simp [ht] at this
    omega
  have h1 : s.drop pre.length = t ++ ['\n'] := by
    rw [hs, List.append_assoc]
    exact List.drop_left pre (t ++ ['\n'])
  have h2 : s.drop (pre.length + 1) = t.drop 1 ++ ['\n'] := by
    rw [← List.drop_drop, h1, List.drop_append_eq_append_drop]
    simp [ht]
  have h3 : final11 s = s.drop (pre.length + 1) := by
    rw [final11, hslen]
    congr 1
  have h4 : '\n' ∈ t := by
    rw [hteq, h3, h2]
    exact List.mem_append_right _ (by simp)
  exact token_mem_newline t hall h4

/-- The trailing search returns the stem's final 11 characters exactly when
they are all id characters and are preceded by the stem start or by a
separator; and it never matches a stem shorter than 11 characters. -/
lemma trailing_final11_iff (s : List Char) :
    (trailingSearch s = some (final11 s) ↔
      (11 ≤ s.length ∧ (final11 s).all isIdChar = true ∧
        (s.length = 11 ∨ (s[s.length - 12]?).any isSep = true))) ∧
    (s.length < 11 → trailingSearch s = none) := by
  constructor
  · constructor
    · intro h
      obtain ⟨ht, hall, pre, e, hs, he, hpre⟩ := trailingGo_sound true s (final11 s) h
      rcases he with h0 | h0
      · subst h0
        rw [List.append_nil] at hs
        have hslen : s.length = pre.length + 11 := by
          have := congrArg List.length hs
          simp [ht] at this
          omega
        refine ⟨by omega, hall, ?_⟩
        rcases hpre with ⟨hp0, _⟩ | ⟨p, c, hp, hc⟩
        · subst hp0
          simp at hslen
          exact Or.inl hslen
        · right
          subst hp
          have hplen : s.length - 12 = p.length := by
            have := congrArg List.length hs
            simp [ht] at this
            omega
          have hget : s[s.length - 12]? = some c := by
            rw [hplen, hs, List.append_assoc]
            rw [List.getElem?_append_right (by simp)]
            simp
          rw [hget]
          simpa using hc
      · exact (final11_no_newline_match s (final11 s) pre ht hall (h0 ▸ hs) rfl).elim
    · rintro ⟨hlen, hall, hpre⟩
      have ht : (final11 s).length = 11 := by
        rw [final11, List.length_drop]
        omega
      have hsplit : s = s.take (s.length - 11) ++ final11 s ++ [] := by
        rw [List.append_nil, final11]
        exact (List.take_append_drop (s.length - 11) s).symm
      by_cases h11 : s.length = 11
      · have hp0 : s.take (s.length - 11) = [] := by
          rw [h11]
          simp
        exact trailingGo_complete true s (final11 s)
          ⟨ht, hall, s.take (s.length - 11), [], hsplit, Or.inl rfl,
            Or.inl ⟨hp0, rfl⟩⟩
      · have h12 : 12 ≤ s.length := by omega
        rcases hpre with h0 | h0
        · exact absurd h0 h11
        · cases hget : s[s.length - 12]? with
          | none => rw [hget] at h0; simp [Option.any] at h0
          | some c =>
            rw [hget] at h0
            have hc : isSep c = true := by simpa [Option.any] using h0
            have hpre2 : s.take (s.length - 11) = s.take (s.length - 12) ++ [c] := by
              have h13 : s.length - 11 = (s.length - 12) + 1 := by omega
              rw [h13, List.take_succ, hget]
              rfl
            exact trailingGo_complete true s (final11 s)
              ⟨ht, hall, s.take (s.length - 11), [], hsplit, Or.inl rfl,
                Or.inr ⟨s.take (s.length - 12), c, hpre2, hc⟩⟩
  · intro hlen
    rw [trailingSearch_eq_none_iff]
    intro t ⟨ht, _, pre, e, hs, _, _⟩
    have := congrArg List.length hs
    simp [ht] at this
    omega

/-! ## Claim theorems: the identifier extractor -/

/-- C1: for every filename whose stem contains a bracket-delimited token of
exactly 11 characters from `[A-Za-z0-9_-]`, `extract_youtube_id` returns
the first (leftmost) such bracketed token exactly, regardless of any
trailing-pattern candidate elsewhere in the name.  (The leftmost condition
says no earlier position of the stem starts a bracketed match.) -/
theorem extract_first_bracketed (fname u t v : List Char)
    (hstem : pyStem (pyName fname) = u ++ '[' :: (t ++ ']' :: v))
    (ht : t.length = 11) (hall : t.all isIdChar = true)
    (hleft : ∀ j, j < u.length →
      bracketedHeadMatch ((u ++ '[' :: (t ++ ']' :: v)).drop j) = none) :
    extract_youtube_id fname = some t := by
  simp only [extract_youtube_id]
  rw [hstem, bracketedSearch_append u t v ht hall hleft]

/-- Witness for C1 on `"My Video [dQw4w9WgXcQ].mp4"`. -/
theorem extract_first_bracketed_witness :
    extract_youtube_id ("My Video [dQw4w9WgXcQ].mp4").toList =
      some ("dQw4w9WgXcQ").toList :=
  extract_first_bracketed ("My Video [dQw4w9WgXcQ].mp4").toList
    ("My Video ").toList ("dQw4w9WgXcQ").toList []
    (by decide) (by decide) (by decide) (by decide)

/-- C2: for every filename whose stem contains no bracketed token,
extraction returns the final 11 characters of the stem exactly when those
11 characters are all drawn from `[A-Za-z0-9_-]` and are immediately
preceded by the start of the stem (a stem of exactly 11 such characters)
or by one of the separators `- _ . (` or space; and a stem shorter than
11 characters never matches the trailing form. -/
theorem extract_trailing_iff (fname : List Char)
    (hnb : bracketedSearch (pyStem (pyName fname)) = none) :
    (extract_youtube_id fname = some (final11 (pyStem (pyName fname))) ↔
      (11 ≤ (pyStem (pyName fname)).length ∧
        (final11 (pyStem (pyName fname))).all isIdChar = true ∧
        ((pyStem (pyName fname)).length = 11 ∨
          ((pyStem (pyName fname))[(pyStem (pyName fname)).length - 12]?).any
            isSep = true))) ∧
    ((pyStem (pyName fname)).length < 11 → extract_youtube_id fname = none) := by
  have hex : extract_youtube_id fname = trailingSearch (pyStem (pyName fname)) := by
    simp only [extract_youtube_id]
    rw [hnb]
  rw [hex]
  exact trailing_final11_iff (pyStem (pyName fname))

/-- Witness for C2 on `"my-video-dQw4w9WgXcQ.mkv"`. -/
theorem extract_trailing_iff_witness :
    extract_youtube_id ("my-video-dQw4w9WgXcQ.mkv").toList =
      some ("dQw4w9WgXcQ").toList :=
  (((extract_trailing_iff (("my-video-dQw4w9WgXcQ.mkv").toList)
    (by decide)).1.mpr (by decide)).trans (by decide))

/-- C7: identifier extraction is total (a Lean function, like the pure
string work in the Python function, which raises no exception) and returns
`none` exactly when the stem has neither a bracketed token nor a trailing
match; absence is a normal result, not an error. -/
theorem extract_none_iff (fname : List Char) :
    extract_youtube_id fname = none ↔
      (¬ HasBracketTok (pyStem (pyName fname)) ∧
        ∀ t, ¬ TrailingMatch true (pyStem (pyName fname)) t) := by
  simp only [extract_youtube_id]
  cases hb : bracketedSearch (pyStem (pyName fname)) with
  | some t =>
    constructor
    · intro h
      simp at h
    · rintro ⟨hnb, _⟩
      exact absurd (bracketedSearch_sound _ t hb) hnb
  | none =>
    rw [trailingSearch_eq_none_iff]
    constructor
    · intro h
      exact ⟨(bracketedSearch_eq_none_iff _).mp hb, h⟩
    · rintro ⟨_, h⟩
      exact h

/-! ## Claim theorems: the asset fetcher -/

/-- An environment where yt-dlp writes one thumbnail and ffmpeg exits
non-zero after creating half-written output at the destination. -/
def envTouchFail : ToolEnv :=
  ⟨false, [("thumb.webp").toList], [], false, 1, 0, true, 7, [("boom").toList]⟩

/-- An environment where yt-dlp writes one thumbnail and ffmpeg exits
non-zero without touching the destination, leaving one stderr line. -/
def envCleanFail : ToolEnv :=
  ⟨false, [("thumb.webp").toList], [], false, 1, 0, false, 0, [("boom").toList]⟩

/-- An environment where yt-dlp writes no file at all. -/
def envYtNone : ToolEnv :=
  ⟨false, [], [("no formats").toList], false, 0, 0, false, 0, []⟩

/-- C3 counterexample: a failing transcode does create a file at a
previously empty destination.  ffmpeg is handed the destination path
directly and the script removes nothing on failure, so the fetch fails
(`false`) while the destination changed from `none` to `some 7` — a
half-written file was created on a failure path, contradicting "the destination
is left untouched on any failure path". -/
theorem download_fail_creates_file :
    download_thumbnail envTouchFail false none =
      .ok (false, some 7, [OutLine.ffFailed 1, OutLine.ffErr ("boom").toList]) ∧
    (some 7 : Option Nat) ≠ none := by
  exact ⟨rfl, by decide⟩

/-- C3 (amended): every returning path of the fetch is characterized.  On
success exactly the transcoded file is written at the destination (and
success happens only when the download tool produced a file and the
transcoder exited zero).  When the download tool writes no file, the fetch
fails and the destination is untouched — the download tool only ever
writes into the private temporary directory.  When the transcode tool
exits non-zero, the fetch fails and the script does not remove or restore
the destination, so it holds whatever ffmpeg left there (possibly a newly
created half-written file).  These three cases are exhaustive: the script
passes the destination path to no command other than ffmpeg. -/
theorem download_dest_behavior (env : ToolEnv) (verbose : Bool)
    (dest : Option Nat) (ok : Bool) (dest2 : Option Nat) (out : List OutLine)
    (h : download_thumbnail env verbose dest = .ok (ok, dest2, out)) :
    (ok = true →
      dest2 = some env.ffContent ∧ env.ytFiles ≠ [] ∧ env.ffExit = 0) ∧
    (env.ytFiles = [] → ok = false ∧ dest2 = dest) ∧
    (ok = false → env.ytFiles ≠ [] →
      env.ffExit ≠ 0 ∧
      dest2 = (if env.ffFailTouches then some env.ffFailContent else dest)) := by
  unfold download_thumbnail at h
  split at h
  · simp at h
  · split at h
    · rename_i hempty
      cases h
      exact ⟨by simp, fun _ => ⟨rfl, rfl⟩,
        fun _ h2 => absurd (List.isEmpty_iff.mp hempty) h2⟩
    · rename_i hempty
      have hne : env.ytFiles ≠ [] := by
        simp only [List.isEmpty_iff] at hempty
        simpa using hempty
      split at h
      · simp at h
      · split at h
        · rename_i hexit
          cases h
          exact ⟨by simp, fun h0 => absurd h0 hne, fun _ _ => ⟨hexit, rfl⟩⟩
        · rename_i hexit
          have hexit0 : env.ffExit = 0 := by omega
          cases h
          exact ⟨fun _ => ⟨rfl, hne, hexit0⟩, fun h0 => absurd h0 hne,
            fun h0 => by simp at h0⟩

/-- Witness for C3 (amended) on the no-thumbnail environment: the fetch
fails and the destination stays `none`. -/
theorem download_dest_behavior_witness :
    false = false ∧ (none : Option Nat) = none :=
  (download_dest_behavior envYtNone false none false none
    [OutLine.ytNoThumb, OutLine.ytErr ("no formats").toList] rfl).2.1 rfl

/-- C4 counterexample: with verbose reporting DISABLED, a failing
transcode does surface diagnostic text — the script prints the captured
stderr tail (`[ffmpeg] boom`), contradicting "with verbose disabled, no
diagnostic text is surfaced". -/
theorem download_nonverbose_surfaces_diagnostics :
    download_thumbnail envCleanFail false none =
      .ok (false, none, [OutLine.ffFailed 1, OutLine.ffErr ("boom").toList]) ∧
    OutLine.ffErr ("boom").toList ∈
      [OutLine.ffFailed 1, OutLine.ffErr ("boom").toList] := by
  exact ⟨rfl, by decide⟩

/-- C4 (amended): on both of the failure modes — the download tool wrote
no file, or the transcoder exited non-zero — the script prints the
tool's captured stderr (all of it for the downloader, the last five lines
for the transcoder) precisely when verbose is disabled, because only then
is the output captured; with verbose enabled nothing is captured — the
tools' output passes straight through to the console and the script
itself prints only the failure header line. -/
theorem download_diagnostics_behavior (env : ToolEnv) (dest : Option Nat) :
    (∀ d2 out, env.ytFiles = [] →
      download_thumbnail env false dest = .ok (false, d2, out) →
      out = [OutLine.ytNoThumb] ++
        (if env.ytStderrLines = [] then []
         else env.ytStderrLines.map OutLine.ytErr)) ∧
    (∀ d2 out, env.ytFiles = [] →
      download_thumbnail env true dest = .ok (false, d2, out) →
      out = (env.ytStderrLines.map OutLine.passthrough) ++
        [OutLine.ytNoThumb]) ∧
    (∀ d2 out, env.ytFiles ≠ [] → env.ffExit ≠ 0 →
      download_thumbnail env false dest = .ok (false, d2, out) →
      out = [OutLine.ffFailed env.ffExit] ++
        (if env.ffStderrLines = [] then []
         else (tail5 env.ffStderrLines).map OutLine.ffErr)) ∧
    (∀ d2 out, env.ytFiles ≠ [] → env.ffExit ≠ 0 →
      download_thumbnail env true dest = .ok (false, d2, out) →
      out = (env.ytStderrLines.map OutLine.passthrough) ++
        (env.ffStderrLines.map OutLine.passthrough) ++
        [OutLine.ffFailed env.ffExit]) := by
  refine ⟨fun d2 out hyt h => ?_, fun d2 out hyt h => ?_,
    fun d2 out hyt hff h => ?_, fun d2 out hyt hff h => ?_⟩
  · cases hR : env.ytRaises with
    | true => simp [download_thumbnail, hR] at h
    | false =>
      simp [download_thumbnail, hR, hyt] at h
      rw [← h.2]
      by_cases hse : env.ytStderrLines = [] <;> simp [hse]
  · cases hR : env.ytRaises with
    | true => simp [download_thumbnail, hR] at h
    | false =>
      simp [download_thumbnail, hR, hyt] at h
      rw [← h.2]
  · cases hR : env.ytRaises with
    | true => simp [download_thumbnail, hR] at h
    | false =>
      cases hytE : env.ytFiles.isEmpty with
      | true => exact absurd (List.isEmpty_iff.mp hytE) hyt
      | false =>
        cases hFR : env.ffRaises with
        | true => simp [download_thumbnail, hR, hytE, hFR] at h
        | false =>
          simp [download_thumbnail, hR, hytE, hFR, hff] at h
          rw [← h.2]
          simp
  · cases hR : env.ytRaises with
    | true => simp [download_thumbnail, hR] at h
    | false =>
      cases hytE : env.ytFiles.isEmpty with
      | true => exact absurd (List.isEmpty_iff.mp hytE) hyt
      | false =>
        cases hFR : env.ffRaises with
        | true => simp [download_thumbnail, hR, hytE, hFR] at h
        | false =>
          simp [download_thumbnail, hR, hytE, hFR, hff] at h
          rw [← h.2]
          simp

/-- Witness for C4 (amended), exercising both failure modes with verbose
disabled: on a no-thumbnail run the script prints the header plus all the
downloader's stderr lines; on a failed transcode it prints the failure
header plus the transcoder's stderr tail. -/
theorem download_diagnostics_behavior_witness :
    ([OutLine.ytNoThumb, OutLine.ytErr ("no formats").toList] =
      [OutLine.ytNoThumb] ++
        (if ([("no formats").toList] : List (List Char)) = [] then []
         else [("no formats").toList].map OutLine.ytErr)) ∧
    ([OutLine.ffFailed 1, OutLine.ffErr ("boom").toList] =
      [OutLine.ffFailed 1] ++
        (if ([("boom").toList] : List (List Char)) = [] then []
         else (tail5 [("boom").toList]).map OutLine.ffErr)) :=
  ⟨(download_diagnostics_behavior envYtNone none).1 none
      [OutLine.ytNoThumb, OutLine.ytErr ("no formats").toList] rfl rfl,
   (download_diagnostics_behavior envCleanFail none).2.2.1 none
      [OutLine.ffFailed 1, OutLine.ffErr ("boom").toList] (by decide) (by decide)
      rfl⟩

/-! ## Lemmas about the scanner loop -/

/-- A non-raising invocation of the tools always lets `download_thumbnail`
return (with `true` or `false`), never raise. -/
lemma download_thumbnail_ok (env : ToolEnv) (verbose : Bool) (dest : Option Nat)
    (hR : env.ytRaises = false) (hFR : env.ffRaises = false) :
    ∃ r, download_thumbnail env verbose dest = .ok r := by
  unfold download_thumbnail
  by_cases hE : env.ytFiles.isEmpty = true <;> by_cases hX : env.ffExit = 0 <;>
    simp [hR, hFR, hE, hX]

/-- A successful fetch writes the transcoded content at the destination. -/
lemma download_ok_true_dest (env : ToolEnv) (verbose : Bool) (dest : Option Nat)
    (d : Option Nat) (out : List OutLine)
    (h : download_thumbnail env verbose dest = .ok (true, d, out)) :
    d = some env.ffContent := by
  unfold download_thumbnail at h
  split at h
  · simp at h
  · split at h
    · simp at h
    · split at h
      · simp at h
      · split at h
        · simp at h
        · simp only [Except.ok.injEq, Prod.mk.injEq] at h
          exact h.2.1.symm

lemma fsGet_fsErase_self (fs : FS) (k : List Char × List Char) :
    fsGet (fsErase fs k) k = none := by
  induction fs with
  | nil => rfl
  | cons a l ih =>
    obtain ⟨k0, v⟩ := a
    by_cases ha : k0 = k <;> simp [fsErase, fsGet, ha] <;> exact ih

lemma fsGet_fsErase_ne (fs : FS) (k k2 : List Char × List Char) (h : k2 ≠ k) :
    fsGet (fsErase fs k) k2 = fsGet fs k2 := by
  induction fs with
  | nil => rfl
  | cons a l ih =>
    obtain ⟨k0, v⟩ := a
    by_cases ha : k0 = k
    · have ha2 : ¬ k0 = k2 := by rw [ha]; exact fun he => h he.symm
      simp only [fsErase, fsGet, if_pos ha, if_neg ha2]
      exact ih
    · by_cases ha2 : k0 = k2
      · simp only [fsErase, fsGet, if_neg ha, if_pos ha2]
      · simp only [fsErase, fsGet, if_neg ha, if_neg ha2]
        exact ih

lemma fsGet_fsSet_self (fs : FS) (k : List Char × List Char) (v : Option Nat) :
    fsGet (fsSet fs k v) k = v := by
  cases v with
  | some v => simp [fsGet, fsSet]
  | none => exact fsGet_fsErase_self fs k

lemma fsGet_fsSet_ne (fs : FS) (k k2 : List Char × List Char) (v : Option Nat)
    (h : k2 ≠ k) : fsGet (fsSet fs k v) k2 = fsGet fs k2 := by
  cases v with
  | some v =>
    have hne : ¬ k = k2 := fun he => h he.symm
    simp [fsGet, fsSet, hne]
    exact fsGet_fsErase_ne fs k k2 h
  | none => exact fsGet_fsErase_ne fs k k2 h

/-- The loop body leaves either no fetch invocation (the three skip paths)
or exactly one invocation tagged with the processed file. -/
lemma processFile_calls_shape (cfg : Config) (env : ToolEnv) (fs : FS)
    (f : FileEntry) (pfr : PFR) (h : processFile cfg env fs f = .ok pfr) :
    (pfr.calls = [] ∧ isSkip pfr.outcome = true) ∨
    (∃ vid, pfr.calls = [(f, vid)] ∧ isSkip pfr.outcome = false) := by
  unfold processFile at h
  split at h
  · cases h
    exact Or.inl ⟨rfl, rfl⟩
  · rename_i vid hvid
    split at h
    · cases h
      exact Or.inl ⟨rfl, rfl⟩
    · split at h
      · cases h
        exact Or.inl ⟨rfl, rfl⟩
      · split at h
        · simp at h
        · rename_i ok d out hdl
          cases h
          refine Or.inr ⟨vid, rfl, ?_⟩
          cases ok <;> rfl

/-- With non-raising tools the loop body always returns an outcome. -/
lemma processFile_ok (cfg : Config) (env : ToolEnv) (fs : FS) (f : FileEntry)
    (hR : env.ytRaises = false) (hFR : env.ffRaises = false) :
    ∃ pfr, processFile cfg env fs f = .ok pfr := by
  unfold processFile
  split
  · exact ⟨_, rfl⟩
  · split
    · exact ⟨_, rfl⟩
    · split
      · exact ⟨_, rfl⟩
      · obtain ⟨⟨ok, d, out⟩, hd⟩ :=
          download_thumbnail_ok env cfg.verbose (fsGet fs (posterKey f)) hR hFR
        rw [hd]
        exact ⟨_, rfl⟩

/-- Accounting for one completed loop run, relative to an arbitrary start
state: one outcome is appended per file, in order; the counters advance by
the number of outcomes of their category; and fetch invocations match the
succeeded/failed outcomes one for one. -/
lemma scanLoop_ok_spec (cfg : Config) (envs : Nat → ToolEnv)
    (files : List FileEntry) (st0 st : ScanState)
    (h : scanLoop cfg envs files st0 = .ok st) :
    ∃ ocs calls,
      st.outcomes = st0.outcomes ++ ocs ∧
      ocs.map Prod.fst = files ∧
      st.calls = st0.calls ++ calls ∧
      (∀ p ∈ calls, p.1 ∈ files) ∧
      st.processed = st0.processed +
        ocs.countP (fun x => x.2 = Outcome.succeeded) ∧
      st.skipped = st0.skipped + ocs.countP (fun x => isSkip x.2) ∧
      st.failed = st0.failed + ocs.countP (fun x => x.2 = Outcome.failed) ∧
      calls.length = ocs.countP (fun x => x.2 = Outcome.succeeded) +
        ocs.countP (fun x => x.2 = Outcome.failed) := by
  induction files generalizing st0 with
  | nil =>
    simp only [scanLoop] at h
    cases h
    exact ⟨[], [], by simp, rfl, by simp, by simp, by simp, by simp, by simp, by simp⟩
  | cons f rest ih =>
    simp only [scanLoop] at h
    cases hp : processFile cfg (envs st0.calls.length) st0.fs f with
    | error e => rw [hp] at h; simp at h
    | ok pfr =>
      rw [hp] at h
      obtain ⟨ocs, calls, ho, hmap, hc, hmem, hpr, hsk, hfl, hlen⟩ :=
        ih (record st0 f pfr) h
      refine ⟨(f, pfr.outcome) :: ocs, pfr.calls ++ calls,
        ?_, ?_, ?_, ?_, ?_, ?_, ?_, ?_⟩
      · rw [ho]
        simp [record]
      · simp [hmap]
      · rw [hc]
        simp [record]
      · intro p hp2
        rcases List.mem_append.mp hp2 with h1 | h1
        · rcases processFile_calls_shape _ _ _ _ _ hp with ⟨hnil, _⟩ | ⟨vid, hone, _⟩
          · rw [hnil] at h1
            simp at h1
          · rw [hone] at h1
            simp at h1
            rw [h1]
            exact List.mem_cons_self f rest
        · exact List.mem_cons_of_mem f (hmem p h1)
      · rw [hpr, List.countP_cons]
        simp [record]
        omega
      · rw [hsk, List.countP_cons]
        simp [record]
        omega
      · rw [hfl, List.countP_cons]
        simp [record]
        omega
      · rw [List.length_append, hlen, List.countP_cons, List.countP_cons]
        rcases processFile_calls_shape _ _ _ _ _ hp with ⟨hnil, hskip⟩ |
          ⟨vid, hone, hnskip⟩
        · rw [hnil]
          cases hoc : pfr.outcome <;> rw [hoc] at hskip <;>
            simp [isSkip] at hskip ⊢ <;> omega
        · rw [hone]
          cases hoc : pfr.outcome <;> rw [hoc] at hnskip <;>
            simp [isSkip] at hnskip ⊢ <;> omega

/-- With skip-existing on, one loop-body step never removes an existing
poster: the fetch only runs when the file's own poster is absent, and it
only writes that poster's key. -/
lemma processFile_skipExisting_mono (cfg : Config) (env : ToolEnv) (fs : FS)
    (f : FileEntry) (pfr : PFR) (hse : cfg.skipExisting = true)
    (h : processFile cfg env fs f = .ok pfr) (k : List Char × List Char)
    (hk : (fsGet fs k).isSome = true) : (fsGet pfr.fs k).isSome = true := by
  unfold processFile at h
  split at h
  · cases h
    exact hk
  · rename_i vid hvid
    split at h
    · cases h
      exact hk
    · rename_i hnex
      split at h
      · cases h
        exact hk
      · split at h
        · simp at h
        · rename_i ok d out hdl
          cases h
          have hkey : (fsGet fs (posterKey f)).isSome = false := by
            rw [hse] at hnex
            simpa using hnex
          have hne : k ≠ posterKey f := by
            intro he
            rw [he] at hk
            rw [hkey] at hk
            exact Bool.noConfusion hk
          show (fsGet (fsSet fs (posterKey f) d) k).isSome = true
          rw [fsGet_fsSet_ne fs (posterKey f) k d hne]
          exact hk

lemma scanLoop_skipExisting_mono (cfg : Config) (envs : Nat → ToolEnv)
    (files : List FileEntry) : ∀ (st0 st : ScanState),
    cfg.skipExisting = true → scanLoop cfg envs files st0 = .ok st →
    ∀ k, (fsGet st0.fs k).isSome = true → (fsGet st.fs k).isSome = true := by
  induction files with
  | nil =>
    intro st0 st _ h k hk
    simp only [scanLoop] at h
    cases h
    exact hk
  | cons f rest ih =>
    intro st0 st hse h k hk
    simp only [scanLoop] at h
    cases hp : processFile cfg (envs st0.calls.length) st0.fs f with
    | error e => rw [hp] at h; simp at h
    | ok pfr =>
      rw [hp] at h
      exact ih (record st0 f pfr) st hse h k
        (processFile_skipExisting_mono cfg _ st0.fs f pfr hse hp k hk)

/-- With skip-existing on, a file whose poster already exists is skipped
by the loop body without touching anything. -/
lemma processFile_existing_skips (cfg : Config) (env : ToolEnv) (fs : FS)
    (f : FileEntry) (hse : cfg.skipExisting = true)
    (hk : (fsGet fs (posterKey f)).isSome = true) :
    ∃ oc, processFile cfg env fs f = .ok ⟨oc, fs, [], []⟩ ∧ isSkip oc = true := by
  have hcond : (cfg.skipExisting && (fsGet fs (posterKey f)).isSome) = true := by
    rw [hse, hk]
    rfl
  unfold processFile
  split
  · exact ⟨.skippedNoId, rfl, rfl⟩
  · rw [if_pos hcond]
    exact ⟨.skippedExisting, rfl, rfl⟩

/-- With skip-existing on, every listed file whose poster exists at the
start of the run is recorded with a skip outcome and gains no fetch
invocation during the run. -/
lemma scanLoop_skipExisting_run (cfg : Config) (envs : Nat → ToolEnv)
    (files : List FileEntry) : ∀ (st0 st : ScanState),
    cfg.skipExisting = true → scanLoop cfg envs files st0 = .ok st →
    ∀ f ∈ files, (fsGet st0.fs (posterKey f)).isSome = true →
      (∃ oc, isSkip oc = true ∧ (f, oc) ∈ st.outcomes) ∧
      (∀ vid, (f, vid) ∈ st.calls → (f, vid) ∈ st0.calls) := by
  induction files with
  | nil =>
    intro st0 st _ _ f hf
    simp at hf
  | cons g rest ih =>
    intro st0 st hse h f hf hk
    simp only [scanLoop] at h
    rcases List.mem_cons.mp hf with rfl | hfr
    · -- the file itself is at the head: it is skipped there
      obtain ⟨oc, hpe, hoc⟩ :=
        processFile_existing_skips cfg (envs st0.calls.length) st0.fs f hse hk
      rw [hpe] at h
      obtain ⟨ocs, calls, ho, hmap, hc, hmem, _⟩ :=
        scanLoop_ok_spec cfg envs rest (record st0 f ⟨oc, st0.fs, [], []⟩) st h
      constructor
      · refine ⟨oc, hoc, ?_⟩
        rw [ho]
        refine List.mem_append.mpr (Or.inl ?_)
        show (f, oc) ∈ st0.outcomes ++ [(f, oc)]
        exact List.mem_append.mpr (Or.inr (by simp))
      · intro vid hv
        by_cases hfr2 : f ∈ rest
        · have hk2 : (fsGet (record st0 f ⟨oc, st0.fs, [], []⟩).fs (posterKey f)).isSome
              = true := hk
          have := (ih (record st0 f ⟨oc, st0.fs, [], []⟩) st hse h f hfr2 hk2).2 vid hv
          show (f, vid) ∈ st0.calls
          have hrec : (record st0 f ⟨oc, st0.fs, [], []⟩).calls = st0.calls := by
            show st0.calls ++ [] = st0.calls
            simp
          rw [hrec] at this
          exact this
        · rw [hc] at hv
          rcases List.mem_append.mp hv with h1 | h1
          · show (f, vid) ∈ st0.calls
            have hrec : (record st0 f ⟨oc, st0.fs, [], []⟩).calls = st0.calls := by
              show st0.calls ++ [] = st0.calls
              simp
            rw [← hrec]
            exact h1
          · exact absurd (hmem (f, vid) h1) hfr2
    · -- the file sits in the tail; the head step keeps its poster present
      cases hp : processFile cfg (envs st0.calls.length) st0.fs g with
      | error e => rw [hp] at h; simp at h
      | ok pfr =>
        rw [hp] at h
        have hk2 : (fsGet (record st0 g pfr).fs (posterKey f)).isSome = true :=
          processFile_skipExisting_mono cfg _ st0.fs g pfr hse hp (posterKey f) hk
        obtain ⟨hout, hcall⟩ := ih (record st0 g pfr) st hse h f hfr hk2
        refine ⟨hout, fun vid hv => ?_⟩
        have h2 := hcall vid hv
        show (f, vid) ∈ st0.calls
        have : (f, vid) ∈ st0.calls ++ pfr.calls := h2
        rcases List.mem_append.mp this with h1 | h1
        · exact h1
        · rcases processFile_calls_shape _ _ _ _ _ hp with ⟨hnil, _⟩ |
            ⟨vid2, hone, _⟩
          · rw [hnil] at h1
            simp at h1
          · rw [hone] at h1
            simp at h1
            -- then f = g, whose poster exists, so the head step made no call
            obtain ⟨oc2, hpe2, _⟩ := processFile_existing_skips cfg
              (envs st0.calls.length) st0.fs g hse (h1.1 ▸ hk)
            rw [hpe2] at hp
            cases hp
            simp at hone

/-- A file recorded as succeeded during a skip-existing run has its poster
present at the end of the run. -/
lemma scanLoop_succeeded_poster (cfg : Config) (envs : Nat → ToolEnv)
    (files : List FileEntry) : ∀ (st0 st : ScanState),
    cfg.skipExisting = true → scanLoop cfg envs files st0 = .ok st →
    ∀ f, (f, Outcome.succeeded) ∈ st.outcomes →
      (f, Outcome.succeeded) ∈ st0.outcomes ∨
      (fsGet st.fs (posterKey f)).isSome = true := by
  induction files with
  | nil =>
    intro st0 st _ h f hf
    simp only [scanLoop] at h
    cases h
    exact Or.inl hf
  | cons g rest ih =>
    intro st0 st hse h f hf
    simp only [scanLoop] at h
    cases hp : processFile cfg (envs st0.calls.length) st0.fs g with
    | error e => rw [hp] at h; simp at h
    | ok pfr =>
      rw [hp] at h
      rcases ih (record st0 g pfr) st hse h f hf with hin | hsome
      · have : (f, Outcome.succeeded) ∈ st0.outcomes ++ [(g, pfr.outcome)] := hin
        rcases List.mem_append.mp this with h1 | h1
        · exact Or.inl h1
        · simp at h1
          obtain ⟨hfg, hoc⟩ := h1
          right
          -- the step wrote the poster of g = f
          have hpost : (fsGet pfr.fs (posterKey f)).isSome = true := by
            subst hfg
            unfold processFile at hp
            split at hp
            · cases hp
              simp at hoc
            · split at hp
              · cases hp
                simp at hoc
              · split at hp
                · cases hp
                  simp at hoc
                · split at hp
                  · simp at hp
                  · rename_i ok d out hdl
                    cases hp
                    have hok : ok = true := by
                      by_contra hne
                      rw [Bool.not_eq_true] at hne
                      rw [hne] at hoc
                      simp at hoc
                    subst hok
                    have hd := download_ok_true_dest _ _ _ _ _ hdl
                    show (fsGet (fsSet st0.fs (posterKey f) d) (posterKey f)).isSome
                      = true
                    rw [fsGet_fsSet_self, hd]
                    rfl
          exact scanLoop_skipExisting_mono cfg envs rest (record st0 g pfr) st hse h
            (posterKey f) hpost
      · exact Or.inr hsome

/-- The three outcome categories partition the recorded outcomes. -/
lemma outcome_counts_partition (ocs : List (FileEntry × Outcome)) :
    ocs.countP (fun x => x.2 = Outcome.succeeded) +
      ocs.countP (fun x => isSkip x.2) +
      ocs.countP (fun x => x.2 = Outcome.failed) = ocs.length := by
  induction ocs with
  | nil => rfl
  | cons a l ih =>
    simp only [List.countP_cons, List.length_cons]
    cases ha : a.2 <;> simp [isSkip, ha] at ih ⊢ <;> omega

/-- With dry-run on, the loop body stops before the fetch on every path:
the file is skipped and nothing is touched. -/
lemma processFile_dryRun (cfg : Config) (env : ToolEnv) (fs : FS)
    (f : FileEntry) (hdr : cfg.dryRun = true) :
    ∃ oc, processFile cfg env fs f = .ok ⟨oc, fs, [], []⟩ ∧ isSkip oc = true := by
  unfold processFile
  split
  · exact ⟨.skippedNoId, rfl, rfl⟩
  · split
    · exact ⟨.skippedExisting, rfl, rfl⟩
    · exact ⟨.skippedDryRun, rfl, rfl⟩

/-! ## Concrete fixtures for witnesses and counterexamples -/

/-- No flags set. -/
def cfgPlain : Config := ⟨false, false, false, false⟩

/-- Dry-run only. -/
def cfgDry : Config := ⟨false, true, false, false⟩

/-- Skip-existing only. -/
def cfgSE : Config := ⟨false, false, true, false⟩

def wDir : List Char := ("/videos").toList

/-- A candidate video file with a trailing-form id in its name. -/
def wFile : FileEntry := ⟨wDir, ("a-dQw4w9WgXcQ.mp4").toList, true⟩

/-- A second candidate video file with the same id. -/
def wFile2 : FileEntry := ⟨wDir, ("b-dQw4w9WgXcQ.mkv").toList, true⟩

def wId : List Char := ("dQw4w9WgXcQ").toList

/-- yt-dlp's executable is missing: `subprocess.run` raises. -/
def envRaise : ToolEnv := ⟨true, [], [], false, 0, 0, false, 0, []⟩

/-- Both tools behave: a thumbnail is written and transcoding succeeds. -/
def envOkFetch : ToolEnv :=
  ⟨false, [("thumb.webp").toList], [], false, 0, 5, false, 0, []⟩

/-! ## Claim theorems: the scanner / orchestrator -/

/-- C5 counterexample: with the downloader executable missing,
`subprocess.run` raises inside per-file processing; nothing catches the
exception, so it propagates out and aborts the whole scan — the second
candidate file is never reached and no outcome is recorded for either
file, contradicting "any error ... is caught at the file boundary and
converted into a terminal ProcessingOutcome". -/
theorem scan_exception_propagates :
    scanLoop cfgPlain (fun _ => envRaise) [wFile, wFile2] (initState []) =
      .error PyExn.oSError := by
  decide

/-- C5 (amended): tool failures reported through the tools' results (no
output file written; non-zero exit code) are turned into outcomes without
raising — when no invocation raises, the loop always completes.  But the
script catches no exception: an exception from invoking an external
command in the loop body propagates immediately, aborting the scan with
the remaining files unprocessed. -/
theorem scan_exception_behavior (cfg : Config) (envs : Nat → ToolEnv) :
    ((∀ n, (envs n).ytRaises = false ∧ (envs n).ffRaises = false) →
      ∀ files st0, ∃ st, scanLoop cfg envs files st0 = .ok st) ∧
    (∀ f rest st0 e,
      processFile cfg (envs st0.calls.length) st0.fs f = .error e →
      scanLoop cfg envs (f :: rest) st0 = .error e) := by
  constructor
  · intro hnr files
    induction files with
    | nil => intro st0; exact ⟨st0, rfl⟩
    | cons f rest ih =>
      intro st0
      obtain ⟨pfr, hp⟩ := processFile_ok cfg (envs st0.calls.length) st0.fs f
        (hnr st0.calls.length).1 (hnr st0.calls.length).2
      obtain ⟨st, hst⟩ := ih (record st0 f pfr)
      refine ⟨st, ?_⟩
      simp only [scanLoop]
      rw [hp]
      exact hst
  · intro f rest st0 e hp
    simp only [scanLoop]
    rw [hp]

/-- Witness for C5 (amended): a non-raising scan completes. -/
theorem scan_exception_behavior_witness :
    ∃ st, scanLoop cfgPlain (fun _ => envOkFetch) [wFile] (initState []) =
      .ok st :=
  (scan_exception_behavior cfgPlain (fun _ => envOkFetch)).1
    (fun _ => ⟨rfl, rfl⟩) [wFile] (initState [])

/-- C6 counterexample: a run whose single tool invocation raises aborts:
the discovered candidate file reaches no terminal state at all and no
summary exists, so "in every run, each discovered candidate file reaches
exactly one terminal state" fails for runs aborted by an uncaught
exception. -/
theorem scan_exception_no_terminal :
    scanLoop cfgPlain (fun _ => envRaise) [wFile] (initState []) =
      .error PyExn.oSError := by
  decide

/-- C6 (amended): in every run that completes (in particular whenever no
tool invocation raises, see `scan_exception_behavior`), each discovered
candidate file reaches exactly one terminal state, exactly once and in
order; the summary counters satisfy processed + skipped + failed = number
of candidate files; each counter counts exactly its outcomes; and the
fetch invocations match the succeeded/failed outcomes one for one, so the
Failed count equals the number of files whose fetch returned failure — a
returned failure for one file never prevents the remaining files from
being processed. -/
theorem scan_accounting (cfg : Config) (envs : Nat → ToolEnv)
    (files : List FileEntry) (fs0 : FS) (st : ScanState)
    (h : scanLoop cfg envs files (initState fs0) = .ok st) :
    st.outcomes.map Prod.fst = files ∧
    st.processed + st.skipped + st.failed = files.length ∧
    st.processed = st.outcomes.countP (fun x => x.2 = Outcome.succeeded) ∧
    st.skipped = st.outcomes.countP (fun x => isSkip x.2) ∧
    st.failed = st.outcomes.countP (fun x => x.2 = Outcome.failed) ∧
    st.calls.length = st.processed + st.failed := by
  obtain ⟨ocs, calls, ho, hmap, hc, hmem, hpr, hsk, hfl, hlen⟩ :=
    scanLoop_ok_spec cfg envs files (initState fs0) st h
  have hoc : st.outcomes = ocs := by
    rw [ho]
    rfl
  have hcalls : st.calls = calls := by
    rw [hc]
    rfl
  have hlen2 : ocs.length = files.length := by
    rw [← hmap, List.length_map]
  have hpart := outcome_counts_partition ocs
  simp only [initState] at hpr hsk hfl
  refine ⟨by rw [hoc]; exact hmap, by omega, ?_, ?_, ?_, ?_⟩
  · rw [hoc]
    omega
  · rw [hoc]
    omega
  · rw [hoc]
    omega
  · rw [hcalls]
    omega

/-- The tools' behaviour for the C6 witness: the first invocation writes
no thumbnail (fetch fails), every later one succeeds. -/
def envsMix : Nat → ToolEnv := fun n => if n = 0 then envYtNone else envOkFetch

/-- The final state of the C6 witness run. -/
def wSt6 : ScanState :=
  ⟨1, 0, 1, [(posterKey wFile2, 5)],
   [(wFile, Outcome.failed), (wFile2, Outcome.succeeded)],
   [(wFile, wId), (wFile2, wId)]⟩

/-- Witness for C6 on a completed two-file run with one failure and one
success. -/
theorem scan_accounting_witness :
    wSt6.outcomes.map Prod.fst = [wFile, wFile2] ∧
    wSt6.processed + wSt6.skipped + wSt6.failed = [wFile, wFile2].length ∧
    wSt6.processed = wSt6.outcomes.countP (fun x => x.2 = Outcome.succeeded) ∧
    wSt6.skipped = wSt6.outcomes.countP (fun x => isSkip x.2) ∧
    wSt6.failed = wSt6.outcomes.countP (fun x => x.2 = Outcome.failed) ∧
    wSt6.calls.length = wSt6.processed + wSt6.failed :=
  scan_accounting cfgPlain envsMix [wFile, wFile2] [] wSt6 (by decide)

/-- C8: with dry-run enabled, for every candidate list, every tool
behaviour and every starting state — whether or not an identifier is found
in a name — the scan completes with no fetch invocation made and the
filesystem unchanged: the Fetcher is never invoked and no output file is
produced. -/
theorem scan_dry_run (cfg : Config) (envs : Nat → ToolEnv)
    (files : List FileEntry) (st0 : ScanState) (hdr : cfg.dryRun = true) :
    ∃ st, scanLoop cfg envs files st0 = .ok st ∧ st.calls = st0.calls ∧
      st.fs = st0.fs := by
  induction files generalizing st0 with
  | nil => exact ⟨st0, rfl, rfl, rfl⟩
  | cons f rest ih =>
    obtain ⟨oc, hpe, hoc⟩ :=
      processFile_dryRun cfg (envs st0.calls.length) st0.fs f hdr
    obtain ⟨st, hst, hcalls, hfs⟩ := ih (record st0 f ⟨oc, st0.fs, [], []⟩)
    refine ⟨st, ?_, ?_, ?_⟩
    · simp only [scanLoop]
      rw [hpe]
      exact hst
    · rw [hcalls]
      simp [record]
    · rw [hfs]
      rfl

/-- Witness for C8: a dry run over a file with an id, against tools that
would raise if ever invoked, completes untouched. -/
theorem scan_dry_run_witness :
    ∃ st, scanLoop cfgDry (fun _ => envRaise) [wFile] (initState []) = .ok st ∧
      st.calls = [] ∧ st.fs = [] :=
  scan_dry_run cfgDry (fun _ => envRaise) [wFile] (initState []) rfl

/-- The final state of a failing-fetch run over `wFile` (the fetch wrote
nothing, so no poster appears). -/
def wStFail : ScanState :=
  ⟨0, 0, 1, [], [(wFile, Outcome.failed)], [(wFile, wId)]⟩

/-- C9 counterexample: when the fetch fails and leaves no asset, running
the scan twice with skip-existing enabled performs the fetch for the same
candidate file in both runs — two invocations in total, contradicting
"performs the fetch for each candidate file at most once in total". -/
theorem scan_twice_refetches_failed :
    scanLoop cfgSE (fun _ => envYtNone) [wFile] (initState []) = .ok wStFail ∧
    scanLoop cfgSE (fun _ => envYtNone) [wFile] (initState wStFail.fs) =
      .ok wStFail ∧
    wStFail.calls = [(wFile, wId)] := by
  exact ⟨by decide, by decide, rfl⟩

/-- C9 (corrected, amended): with skip-existing enabled, the second run
skips — and never fetches — every candidate file whose
`<stem>-poster.jpg` exists after the first run, in particular every file
the first run fetched successfully.  (A file whose fetch failed and left
no asset is fetched again by the second run.) -/
theorem scan_twice_skip_existing (cfg : Config) (envs1 envs2 : Nat → ToolEnv)
    (files : List FileEntry) (fs0 : FS) (st1 st2 : ScanState)
    (hse : cfg.skipExisting = true)
    (h1 : scanLoop cfg envs1 files (initState fs0) = .ok st1)
    (h2 : scanLoop cfg envs2 files (initState st1.fs) = .ok st2) :
    (∀ f, (f, Outcome.succeeded) ∈ st1.outcomes →
      (fsGet st1.fs (posterKey f)).isSome = true) ∧
    (∀ f ∈ files, (fsGet st1.fs (posterKey f)).isSome = true →
      (∃ oc, isSkip oc = true ∧ (f, oc) ∈ st2.outcomes) ∧
      (∀ vid, (f, vid) ∉ st2.calls)) := by
  constructor
  · intro f hsucc
    rcases scanLoop_succeeded_poster cfg envs1 files (initState fs0) st1 hse h1 f
      hsucc with hin | hsome
    · simp [initState] at hin
    · exact hsome
  · intro f hf hk
    obtain ⟨hout, hcall⟩ := scanLoop_skipExisting_run cfg envs2 files
      (initState st1.fs) st2 hse h2 f hf hk
    refine ⟨hout, fun vid hv => ?_⟩
    have := hcall vid hv
    simp [initState] at this

/-- The final state of a successful skip-existing run over `wFile`. -/
def wSt1 : ScanState :=
  ⟨1, 0, 0, [(posterKey wFile, 5)], [(wFile, Outcome.succeeded)],
   [(wFile, wId)]⟩

/-- The final state of the second run: the poster exists, so the file is
skipped without a fetch. -/
def wSt2 : ScanState :=
  ⟨0, 1, 0, [(posterKey wFile, 5)], [(wFile, Outcome.skippedExisting)], []⟩

/-- Witness for C9 (amended) on a file fetched successfully in run one:
run two records it as skipped and makes no fetch call for it. -/
theorem scan_twice_skip_existing_witness :
    (∃ oc, isSkip oc = true ∧ (wFile, oc) ∈ wSt2.outcomes) ∧
    (∀ vid, (wFile, vid) ∉ wSt2.calls) :=
  (scan_twice_skip_existing cfgSE (fun _ => envOkFetch) (fun _ => envOkFetch)
    [wFile] [] wSt1 wSt2 rfl (by decide) (by decide)).2 wFile (by decide)
    (by decide)

/-- A directory entry whose whole name is `".mp4"`. -/
def dotEntry : FileEntry := ⟨wDir, (".mp4").toList, true⟩

/-- C10: an entry whose entire name equals a recognized video extension
(a dotfile like `".mp4"`) is never classified as a candidate file, for any
directory listing: `pathlib` gives such names an empty suffix, so the
extension check rejects them. -/
theorem dotfile_not_candidate (entries : List FileEntry) (e : FileEntry)
    (hname : e.name ∈ VIDEO_EXTENSIONS) : e ∉ candidateFiles entries := by
  intro hin
  have hp := (List.mem_filter.mp hin).2
  simp only [Bool.and_eq_true] at hp
  have hv : isVideoFile e.name = true := hp.2
  have hfalse : isVideoFile e.name = false := by
    simp only [VIDEO_EXTENSIONS, List.mem_cons, List.not_mem_nil, or_false] at hname
    rcases hname with h|h|h|h|h|h|h|h|h|h|h|h <;> rw [h] <;> decide
  rw [hfalse] at hv
  exact Bool.noConfusion hv

/-- Witness for C10: the dotfile `".mp4"` is excluded even from a listing
containing only itself. -/
theorem dotfile_not_candidate_witness :
    dotEntry ∉ candidateFiles [dotEntry] :=
  dotfile_not_candidate [dotEntry] dotEntry (by decide)

end Thumbnailer
